import Mathlib

/-!
Shallow embedding of the `gpool` package: a generic, fixed-capacity object
pool built on a buffered channel (`chan T` of capacity `size`).

Modelling decisions, in one-to-one correspondence with `gpool.go`:

* The buffered channel `p.c` is a FIFO list `c : List T`; a receive takes
  the head, a send appends at the tail, and sends succeed only while
  `c.length < size`.
* `opt.NewFunc : func() T` is an optional, possibly stateful closure; a
  deterministic closure is equivalent to the step-indexed function of its
  invocation count, so it is embedded as `new : Option (Nat → T)` together
  with a counter `newCalls` of constructor invocations so far.
* `opt.CloseFunc : func(T)` only matters through the side effect of being
  invoked once per discarded instance, from a goroutine tracked by the
  pool's `sync.WaitGroup`.  It is embedded as a presence flag
  `close : Bool` plus the list `destroyed` of instances for which a
  destruction task has been scheduled (`wg.Add(1); go ...`); after
  `Close().Wait()` every scheduled task has run, so `destroyed` is exactly
  the multiset of destructor invocations.
* `close(p.c)` sets `closed := true`.  A receive on a closed, drained
  channel yields the zero value (embedded via `Inhabited.default`); a send
  on a closed channel panics, and closing a closed channel panics, so
  `Put` and `Close` return `Option` with `none` meaning panic.
-/

namespace GPool

/-- State of a `pool[T]` value: channel contents, capacity, optional
constructor with its invocation counter, destructor presence, the scheduled
destruction tasks, and whether the channel has been closed. -/
structure PoolState (T : Type) where
  c : List T
  size : Nat
  new : Option (Nat → T)
  newCalls : Nat
  close : Bool
  destroyed : List T
  closed : Bool

/-- Embeds `func (p *pool[T]) maybeNew() (v T)`: call the constructor when
present (recording the invocation), otherwise return the zero value. -/
def maybeNew {T : Type} [Inhabited T] (p : PoolState T) : T × PoolState T :=
  match p.new with
  | some f => (f p.newCalls, { p with newCalls := p.newCalls + 1 })
  | none => (default, p)

/-- Embeds `func (p *pool[T]) maybeClose(v T)`: when a destructor is
present, schedule one destruction task for `v` (tracked by the wait
group); otherwise do nothing. -/
def maybeClose {T : Type} (p : PoolState T) (v : T) : PoolState T :=
  if p.close then { p with destroyed := p.destroyed ++ [v] } else p

/-- Embeds `func (p *pool[T]) Get() T`: the select receives from `p.c`
when that is ready — a buffered value, or the zero value once the channel
is closed and drained — and otherwise falls to the default branch
`maybeNew`. -/
def Get {T : Type} [Inhabited T] (p : PoolState T) : T × PoolState T :=
  match p.c with
  | v :: rest => (v, { p with c := rest })
  | [] => if p.closed then (default, p) else maybeNew p

/-- Embeds `func (p *pool[T]) Put(v T)`: the select sends into `p.c` when
there is spare capacity, falls to `maybeClose` when the buffer is full,
and panics (`none`) when the channel is closed, since a send on a closed
channel proceeds and panics. -/
def Put {T : Type} (p : PoolState T) (v : T) : Option (PoolState T) :=
  if p.closed then none
  else if p.c.length < p.size then some { p with c := p.c ++ [v] }
  else some (maybeClose p v)

/-- Embeds the loop `for v := range p.c { p.maybeClose(v) }` run by
`Close` after `close(p.c)`: each buffered value is drained and handed to
`maybeClose`. -/
def drainList {T : Type} (p : PoolState T) : List T → PoolState T
  | [] => p
  | v :: rest => drainList (maybeClose p v) rest

/-- Embeds `func (p *pool[T]) Close() *sync.WaitGroup`: closing an already
closed channel panics (`none`); otherwise the channel is closed, its
buffered values are drained through `maybeClose`, and the wait group is
returned — waiting on it runs all scheduled destruction tasks, which the
model records in `destroyed`. -/
def Close {T : Type} (p : PoolState T) : Option (PoolState T) :=
  if p.closed then none
  else some (drainList { p with closed := true, c := [] } p.c)

/-- Embeds `func NewPool[T any](size int, opt Options[T]) Pool[T]`: an
empty channel of capacity `size` with the optional callbacks. -/
def NewPool {T : Type} (size : Nat) (newFunc : Option (Nat → T))
    (closeFunc : Bool) : PoolState T :=
  { c := [], size := size, new := newFunc, newCalls := 0,
    close := closeFunc, destroyed := [], closed := false }

/-- Embeds `func (p *resetPool[T]) Put(v T)`: reset the instance
synchronously on the caller's thread, then delegate to the wrapped pool's
`Put` unchanged.  The `Resetter` capability is the function `reset`. -/
def resetPut {T : Type} (reset : T → T) (p : PoolState T) (v : T) :
    Option (PoolState T) :=
  Put p (reset v)

/-- A `resetPool` inherits `Get` from the embedded `Pool[T]` unchanged. -/
def resetGet {T : Type} [Inhabited T] (p : PoolState T) : T × PoolState T :=
  Get p

/-- A `resetPool` inherits `Close` from the embedded `Pool[T]` unchanged. -/
def resetClose {T : Type} (p : PoolState T) : Option (PoolState T) :=
  Close p

/-- A client-visible operation on a pool that has not been closed. -/
inductive Op (T : Type) where
  | get : Op T
  | put : T → Op T

/-- Run one operation, keeping the state (`Put` before `Close` never
panics, so the `getD` fallback is never taken on an open pool). -/
def runOp {T : Type} [Inhabited T] (p : PoolState T) : Op T → PoolState T
  | .get => (Get p).2
  | .put v => (Put p v).getD p

/-- Run a sequence of `Get`/`Put` operations. -/
def run {T : Type} [Inhabited T] (p : PoolState T) : List (Op T) → PoolState T
  | [] => p
  | o :: os => run (runOp p o) os

/-- Perform one `Put` per element of `vs`, in order. -/
def putAll {T : Type} [Inhabited T] (p : PoolState T) (vs : List T) :
    PoolState T :=
  run p (vs.map Op.put)

/-- Perform `n` `Get` calls, collecting the returned instances in order. -/
def getN {T : Type} [Inhabited T] (p : PoolState T) : Nat → List T × PoolState T
  | 0 => ([], p)
  | n + 1 =>
    let r := Get p
    let s := getN r.2 n
    (r.1 :: s.1, s.2)

/-! Basic lemmas about the embedded operations. -/

theorem maybeClose_c {T : Type} (p : PoolState T) (v : T) :
    (maybeClose p v).c = p.c := by
  unfold maybeClose; split <;> rfl

theorem maybeClose_destroyed {T : Type} (p : PoolState T) (v : T) :
    (maybeClose p v).destroyed =
      p.destroyed ++ (if p.close then [v] else []) := by
  unfold maybeClose; split <;> simp_all

theorem maybeClose_fields {T : Type} (p : PoolState T) (v : T) :
    (maybeClose p v).size = p.size ∧ (maybeClose p v).new = p.new ∧
    (maybeClose p v).newCalls = p.newCalls ∧
    (maybeClose p v).close = p.close ∧
    (maybeClose p v).closed = p.closed := by
  unfold maybeClose; split <;> simp_all

theorem Put_lt {T : Type} (p : PoolState T) (v : T) (h : ¬p.closed)
    (hlt : p.c.length < p.size) :
    Put p v = some { p with c := p.c ++ [v] } := by
  simp [Put, h, hlt]

theorem Put_full {T : Type} (p : PoolState T) (v : T) (h : ¬p.closed)
    (hlt : ¬p.c.length < p.size) :
    Put p v = some (maybeClose p v) := by
  simp [Put, h, hlt]

theorem runOp_fields {T : Type} [Inhabited T] (p : PoolState T) (o : Op T) :
    (runOp p o).closed = p.closed ∧ (runOp p o).size = p.size ∧
    (runOp p o).new = p.new ∧ (runOp p o).close = p.close := by
  cases o with
  | get =>
    simp only [runOp]
    cases hc : p.c with
    | cons v rest => simp [Get, hc]
    | nil =>
      by_cases hcl : p.closed
      · simp [Get, hc, hcl]
      · cases hn : p.new <;> simp [Get, hc, hcl, maybeNew, hn]
  | put v =>
    simp only [runOp]
    by_cases hcl : p.closed
    · simp [Put, hcl]
    · by_cases hlt : p.c.length < p.size
      · simp [Put, hcl, hlt]
      · simp [Put, hcl, hlt, maybeClose_fields]

theorem run_fields {T : Type} [Inhabited T] (p : PoolState T)
    (ops : List (Op T)) :
    (run p ops).closed = p.closed ∧ (run p ops).size = p.size ∧
    (run p ops).new = p.new ∧ (run p ops).close = p.close := by
  induction ops generalizing p with
  | nil => simp [run]
  | cons o os ih =>
    have h := runOp_fields p o
    have h2 := ih (runOp p o)
    unfold run
    exact ⟨h2.1.trans h.1, h2.2.1.trans h.2.1, h2.2.2.1.trans h.2.2.1,
      h2.2.2.2.trans h.2.2.2⟩

theorem runOp_length {T : Type} [Inhabited T] (p : PoolState T) (o : Op T)
    (hlen : p.c.length ≤ p.size) :
    (runOp p o).c.length ≤ p.size := by
  cases o with
  | get =>
    simp only [runOp]
    cases hc : p.c with
    | cons v rest =>
      have := hc ▸ hlen
      simp [Get, hc]
      simp at this
      omega
    | nil =>
      by_cases hcl : p.closed
      · simp [Get, hc, hcl]
      · cases hn : p.new <;> simp [Get, hc, hcl, maybeNew, hn]
  | put v =>
    simp only [runOp]
    by_cases hcl : p.closed
    · simp [Put, hcl, hlen]
    · by_cases hlt : p.c.length < p.size
      · simp [Put, hcl, hlt]
        omega
      · simp [Put, hcl, hlt, maybeClose_c, hlen]

theorem run_length {T : Type} [Inhabited T] (p : PoolState T)
    (ops : List (Op T)) (hlen : p.c.length ≤ p.size) :
    (run p ops).c.length ≤ p.size := by
  induction ops generalizing p with
  | nil => simpa [run]
  | cons o os ih =>
    simp only [run]
    have h1 := runOp_length p o hlen
    have h2 := (runOp_fields p o).2.1
    have h3 := ih (runOp p o) (by omega)
    omega

theorem putAll_nil {T : Type} [Inhabited T] (p : PoolState T) :
    putAll p [] = p := rfl

theorem putAll_cons {T : Type} [Inhabited T] (p : PoolState T) (v : T)
    (rest : List T) :
    putAll p (v :: rest) = putAll (runOp p (Op.put v)) rest := by
  simp [putAll, run]

/-- Effect of a sequence of `Put` calls on an open pool with spare room
`size - c.length`: the first values that fit are appended to the store, the
rest overflow to `maybeClose`, and the constructor is never invoked. -/
theorem putAll_spec {T : Type} [Inhabited T] (vs : List T) (p : PoolState T)
    (h : ¬p.closed) (hlen : p.c.length ≤ p.size) :
    (putAll p vs).c = p.c ++ vs.take (p.size - p.c.length) ∧
    (putAll p vs).destroyed =
      p.destroyed ++ (if p.close then vs.drop (p.size - p.c.length) else []) ∧
    (putAll p vs).newCalls = p.newCalls := by
  induction vs generalizing p with
  | nil => simp [putAll_nil]
  | cons v rest ih =>
    rw [putAll_cons]
    by_cases hlt : p.c.length < p.size
    · have hq : runOp p (Op.put v) = { p with c := p.c ++ [v] } := by
        simp [runOp, Put_lt p v h hlt]
      rw [hq]
      obtain ⟨h1, h2, h3⟩ :=
        ih { p with c := p.c ++ [v] } h (by simp; omega)
      have hs : p.size - p.c.length = (p.size - (p.c.length + 1)) + 1 := by
        omega
      refine ⟨?_, ?_, h3⟩
      · rw [h1, hs]; simp
      · rw [h2, hs]; simp
    · by_cases hcl : p.close
      · have hq : runOp p (Op.put v) =
            { p with destroyed := p.destroyed ++ [v] } := by
          simp [runOp, Put_full p v h hlt, maybeClose, hcl]
        rw [hq]
        obtain ⟨h1, h2, h3⟩ :=
          ih { p with destroyed := p.destroyed ++ [v] } h (by simpa)
        have h0 : p.size - p.c.length = 0 := by omega
        refine ⟨?_, ?_, h3⟩
        · rw [h1, h0]; simp [h0]
        · rw [h2, h0]; simp [h0, hcl]
      · have hq : runOp p (Op.put v) = p := by
          simp [runOp, Put_full p v h hlt, maybeClose, hcl]
        rw [hq]
        obtain ⟨h1, h2, h3⟩ := ih p h hlen
        have h0 : p.size - p.c.length = 0 := by omega
        refine ⟨?_, ?_, h3⟩
        · rw [h1, h0]; simp [h0]
        · rw [h2, h0]; simp [h0, hcl]

/-- Effect of `n` consecutive `Get` calls on a pool holding at least `n`
instances: the first `n` stored instances come back in order, only the
store shrinks, and the constructor is never invoked. -/
theorem getN_spec {T : Type} [Inhabited T] (n : Nat) (p : PoolState T)
    (h : n ≤ p.c.length) :
    (getN p n).1 = p.c.take n ∧
    (getN p n).2 = { p with c := p.c.drop n } := by
  induction n generalizing p with
  | zero => simp [getN]
  | succ n ih =>
    cases hc : p.c with
    | nil => rw [hc] at h; simp at h
    | cons v rest =>
      have hg : Get p = (v, { p with c := rest }) := by simp [Get, hc]
      have hrec := ih { p with c := rest }
        (by rw [hc] at h; simpa using Nat.lt_succ_iff.mp (Nat.lt_of_lt_of_le (Nat.lt_succ_self n) h))
      simp [getN, hg, hc, hrec.1, hrec.2]

/-- Effect of `n` consecutive `Get` calls on an open pool whose store is
empty and whose constructor is present: every call falls to the default
branch and invokes the constructor once, handing out the freshly
constructed instances in invocation order. -/
theorem getN_empty_new {T : Type} [Inhabited T] (n : Nat) (p : PoolState T)
    (f : Nat → T) (hc : p.c = []) (hcl : ¬p.closed) (hn : p.new = some f) :
    getN p n = ((List.range n).map (fun i => f (p.newCalls + i)),
      { p with newCalls := p.newCalls + n }) := by
  induction n generalizing p with
  | zero => simp [getN]
  | succ n ih =>
    have hg : Get p = (f p.newCalls, { p with newCalls := p.newCalls + 1 }) := by
      simp [Get, hc, hcl, maybeNew, hn]
    have hrec := ih { p with newCalls := p.newCalls + 1 } hc hcl hn
    simp only [getN, hg, hrec]
    rw [Prod.ext_iff]
    constructor
    · simp only [List.range_succ_eq_map, List.map_cons, List.map_map,
        Nat.add_zero]
      congr 1
      apply List.map_congr_left
      intro i hi
      simp only [Function.comp_apply]
      congr 1
      omega
    · have harith : p.newCalls + 1 + n = p.newCalls + (n + 1) := by omega
      simp [harith]

/-- Effect of the `Close` drain loop: the buffer field is untouched, one
destruction task is scheduled per drained value (when a destructor is
present), and every other field is preserved. -/
theorem drainList_spec {T : Type} (vs : List T) (p : PoolState T) :
    (drainList p vs).c = p.c ∧
    (drainList p vs).destroyed =
      p.destroyed ++ (if p.close then vs else []) ∧
    (drainList p vs).size = p.size ∧ (drainList p vs).new = p.new ∧
    (drainList p vs).newCalls = p.newCalls ∧
    (drainList p vs).close = p.close ∧
    (drainList p vs).closed = p.closed := by
  induction vs generalizing p with
  | nil => simp [drainList]
  | cons v rest ih =>
    by_cases hcl : p.close
    · have hm : maybeClose p v = { p with destroyed := p.destroyed ++ [v] } := by
        simp [maybeClose, hcl]
      have hrec := ih { p with destroyed := p.destroyed ++ [v] }
      simp [hcl] at hrec
      simp [drainList, hm, hcl, hrec]
    · have hm : maybeClose p v = p := by simp [maybeClose, hcl]
      have hrec := ih p
      simp [hcl] at hrec
      simp [drainList, hm, hcl, hrec]

theorem Close_open {T : Type} (p : PoolState T) (h : ¬p.closed) :
    Close p = some (drainList { p with closed := true, c := [] } p.c) := by
  simp [Close, h]

/-- Summary of `Close` on an open pool: it succeeds, empties the store,
marks the pool closed, schedules one destruction task per stored instance
when a destructor is present, and preserves the remaining fields. -/
theorem Close_spec {T : Type} (p : PoolState T) (h : ¬p.closed) (q : PoolState T)
    (hq : Close p = some q) :
    q.c = [] ∧ q.closed = true ∧
    q.destroyed = p.destroyed ++ (if p.close then p.c else []) ∧
    q.newCalls = p.newCalls ∧ q.size = p.size ∧ q.new = p.new ∧
    q.close = p.close := by
  rw [Close_open p h] at hq
  obtain ⟨h1, h2, h3, h4, h5, h6, h7⟩ :=
    drainList_spec p.c { p with closed := true, c := [] }
  simp at h1 h2 h3 h4 h5 h6 h7
  cases hq
  exact ⟨h1, h7, h2, h5, h3, h4, h6⟩

@[simp] theorem NewPool_c {T : Type} (n : Nat) (nf : Option (Nat → T))
    (cf : Bool) : (NewPool n nf cf).c = [] := rfl

@[simp] theorem NewPool_size {T : Type} (n : Nat) (nf : Option (Nat → T))
    (cf : Bool) : (NewPool n nf cf).size = n := rfl

@[simp] theorem NewPool_new {T : Type} (n : Nat) (nf : Option (Nat → T))
    (cf : Bool) : (NewPool n nf cf).new = nf := rfl

@[simp] theorem NewPool_newCalls {T : Type} (n : Nat) (nf : Option (Nat → T))
    (cf : Bool) : (NewPool n nf cf).newCalls = 0 := rfl

@[simp] theorem NewPool_close {T : Type} (n : Nat) (nf : Option (Nat → T))
    (cf : Bool) : (NewPool n nf cf).close = cf := rfl

@[simp] theorem NewPool_destroyed {T : Type} (n : Nat) (nf : Option (Nat → T))
    (cf : Bool) : (NewPool n nf cf).destroyed = [] := rfl

@[simp] theorem NewPool_closed {T : Type} (n : Nat) (nf : Option (Nat → T))
    (cf : Bool) : (NewPool n nf cf).closed = false := rfl

/-- C1: for a pool of capacity `N`, the store never holds more than `N`
instances after any sequence of `Get`/`Put` calls; after the `Put` calls of
`vs` with no prior `Get` the store holds exactly `min vs.length N`
instances (for `vs.length = N` puts this is `min N N`), and each `Get`
called immediately after returns a previously-put instance without
invoking the constructor, for up to that many calls. -/
theorem C1_capacity_invariant (N : Nat) (f : Nat → Nat) (b : Bool)
    (ops : List (Op Nat)) (vs : List Nat) (k : Nat)
    (hk : k ≤ min vs.length N) :
    (run (NewPool N (some f) b) ops).c.length ≤ N ∧
    (putAll (NewPool N (some f) b) vs).c.length = min vs.length N ∧
    (getN (putAll (NewPool N (some f) b) vs) k).1 = vs.take k ∧
    (∀ x ∈ (getN (putAll (NewPool N (some f) b) vs) k).1, x ∈ vs) ∧
    (getN (putAll (NewPool N (some f) b) vs) k).2.newCalls = 0 := by
  have hrun := run_length (NewPool N (some f) b) ops (by simp)
  obtain ⟨hc, hd, hn⟩ :=
    putAll_spec vs (NewPool N (some f) b) (by simp) (by simp)
  simp only [NewPool_c, NewPool_size, NewPool_newCalls, NewPool_close,
    NewPool_destroyed, List.nil_append, Nat.sub_zero] at hc hd hn
  obtain ⟨hk1, hkN⟩ := le_inf_iff.mp hk
  have hclen : (putAll (NewPool N (some f) b) vs).c.length = min vs.length N := by
    rw [hc]; simp [Nat.min_comm]
  have hk2 : k ≤ (putAll (NewPool N (some f) b) vs).c.length :=
    le_of_le_of_eq hk hclen.symm
  obtain ⟨hg1, hg2⟩ := getN_spec k (putAll (NewPool N (some f) b) vs) hk2
  refine ⟨by simpa using hrun, hclen, ?_, ?_, ?_⟩
  · rw [hg1, hc, List.take_take]
    congr 1
    exact inf_eq_left.mpr hkN
  · intro x hx
    rw [hg1] at hx
    exact List.take_subset _ _ (hc ▸ List.take_subset _ _ hx)
  · rw [hg2]
    simpa using hn

/-- C1 witness at capacity 2 with three puts. -/
theorem C1_capacity_invariant_witness :
    (2 ≤ min ([5, 6, 7] : List Nat).length 2) ∧
    (getN (putAll (NewPool 2 (some (fun n => n)) true) [5, 6, 7]) 2).1 =
      [5, 6] := by
  refine ⟨by decide, ?_⟩
  have h := C1_capacity_invariant 2 (fun n => n) true [] [5, 6, 7] 2
    (by decide)
  simpa using h.2.2.1

/-- C2: on a pool that has not been closed, `Get` removes and returns the
oldest stored instance when the store is non-empty; on an empty store it
invokes the constructor synchronously when one was supplied, and returns
the zero value when none was; `Get` never fails. -/
theorem C2_get_semantics {T : Type} [Inhabited T] (p : PoolState T)
    (h : ¬p.closed) :
    (∀ v rest, p.c = v :: rest → Get p = (v, { p with c := rest })) ∧
    (∀ f, p.c = [] → p.new = some f →
      Get p = (f p.newCalls, { p with newCalls := p.newCalls + 1 })) ∧
    (p.c = [] → p.new = none → Get p = (default, p)) := by
  refine ⟨?_, ?_, ?_⟩ <;> intros <;> simp_all [Get, maybeNew]

/-- C2 witness: a stored instance is returned, a constructor is invoked on
an empty store, and the zero value is produced with no constructor. -/
theorem C2_get_semantics_witness :
    Get (⟨[5], 2, some (fun n => n), 0, false, [], false⟩ : PoolState Nat) =
      (5, ⟨[], 2, some (fun n => n), 0, false, [], false⟩) ∧
    Get (⟨[], 2, some (fun n => n + 3), 4, false, [], false⟩ : PoolState Nat) =
      (7, ⟨[], 2, some (fun n => n + 3), 5, false, [], false⟩) ∧
    Get (⟨[], 2, none, 0, false, [], false⟩ : PoolState Nat) =
      (0, ⟨[], 2, none, 0, false, [], false⟩) := by
  refine ⟨?_, ?_, ?_⟩
  · exact (C2_get_semantics _ (by simp)).1 5 [] rfl
  · exact (C2_get_semantics _ (by simp)).2.1 (fun n => n + 3) rfl rfl
  · exact (C2_get_semantics _ (by simp)).2.2 rfl rfl

/-- C3: on a pool that has not been closed, `Put` stores the instance when
there is spare capacity; when the store is full the instance is not
stored: with a destructor present exactly one destruction task for it is
scheduled under the pool's join mechanism, and with no destructor the
state is unchanged (the instance is dropped).  `Put` never fails on an
open pool. -/
theorem C3_put_semantics {T : Type} (p : PoolState T) (v : T)
    (h : ¬p.closed) :
    (Put p v).isSome ∧
    (p.c.length < p.size → Put p v = some { p with c := p.c ++ [v] }) ∧
    (¬p.c.length < p.size →
      Put p v = some (maybeClose p v) ∧
      (maybeClose p v).c = p.c ∧
      (p.close = true →
        (maybeClose p v).destroyed = p.destroyed ++ [v]) ∧
      (p.close = false → maybeClose p v = p)) := by
  refine ⟨?_, fun hlt => Put_lt p v h hlt, fun hge => ?_⟩
  · by_cases hlt : p.c.length < p.size
    · simp [Put_lt p v h hlt]
    · simp [Put_full p v h hlt]
  · refine ⟨Put_full p v h hge, maybeClose_c p v, ?_, ?_⟩
    · intro hcl; simp [maybeClose, hcl]
    · intro hcl; simp [maybeClose, hcl]

/-- C3 witness: a put into a pool with room stores the value, a put into a
full pool with a destructor schedules one destruction task, and a put into
a full pool with no destructor leaves the state unchanged. -/
theorem C3_put_semantics_witness :
    Put (⟨[1], 2, none, 0, true, [], false⟩ : PoolState Nat) 9 =
      some ⟨[1, 9], 2, none, 0, true, [], false⟩ ∧
    Put (⟨[1, 2], 2, none, 0, true, [7], false⟩ : PoolState Nat) 9 =
      some ⟨[1, 2], 2, none, 0, true, [7, 9], false⟩ ∧
    Put (⟨[1, 2], 2, none, 0, false, [], false⟩ : PoolState Nat) 9 =
      some ⟨[1, 2], 2, none, 0, false, [], false⟩ := by
  refine ⟨?_, ?_, ?_⟩
  · exact (C3_put_semantics (⟨[1], 2, none, 0, true, [], false⟩ : PoolState Nat)
      9 (by simp)).2.1 (by decide)
  · have h := (C3_put_semantics
      (⟨[1, 2], 2, none, 0, true, [7], false⟩ : PoolState Nat) 9 (by simp)).2.2
      (by decide)
    rw [h.1]
    simp [maybeClose]
  · have h := (C3_put_semantics
      (⟨[1, 2], 2, none, 0, false, [], false⟩ : PoolState Nat) 9 (by simp)).2.2
      (by decide)
    rw [h.1, h.2.2.2 rfl]

/-- C4: after any sequence of `Get`/`Put` operations on a fresh pool
followed by one `Close`, and once `Wait` has let every scheduled task run,
the store is empty and the destructor has been invoked exactly once for
every instance stored at the moment of `Close` plus exactly once for every
previously overflowed instance — stated both as a list identity and as an
exact per-instance invocation count, so there are no duplicated and no
missed invocations. -/
theorem C4_close_drains (N : Nat) (f : Nat → Nat) (b : Bool)
    (ops : List (Op Nat)) :
    ∃ q, Close (run (NewPool N (some f) b) ops) = some q ∧
      q.c = [] ∧
      q.destroyed = (run (NewPool N (some f) b) ops).destroyed ++
        (if b then (run (NewPool N (some f) b) ops).c else []) ∧
      ∀ x : Nat, q.destroyed.count x =
        (run (NewPool N (some f) b) ops).destroyed.count x +
          (if b then (run (NewPool N (some f) b) ops).c.count x else 0) := by
  have hcl : (run (NewPool N (some f) b) ops).closed = false := by
    rw [(run_fields (NewPool N (some f) b) ops).1]; rfl
  have hcf : (run (NewPool N (some f) b) ops).close = b := by
    rw [(run_fields (NewPool N (some f) b) ops).2.2.2]; rfl
  have hopen : ¬(run (NewPool N (some f) b) ops).closed = true := by
    simp [hcl]
  refine ⟨_, Close_open _ hopen, ?_, ?_, ?_⟩
  · exact (Close_spec _ hopen _ (Close_open _ hopen)).1
  · rw [(Close_spec _ hopen _ (Close_open _ hopen)).2.2.1, hcf]
  · intro x
    rw [(Close_spec _ hopen _ (Close_open _ hopen)).2.2.1, hcf,
      List.count_append]
    by_cases hb : b <;> simp [hb]

/-- C5: a fresh pool of capacity `cap` with a destructor, given
`cap + k` `Put` calls (`k > 0`), schedules exactly `k` destruction tasks —
one per overflowed instance, the overflow suffix of the puts, distinct
when the put instances are distinct — while `Put` itself only schedules
and never runs a destructor; with no destructor the same `k` overflow puts
are silent drops and the store still holds `cap` instances. -/
theorem C5_overflow (cap k : Nat) (hk : 0 < k) (f : Nat → Nat)
    (vs : List Nat) (hlen : vs.length = cap + k) :
    (putAll (NewPool cap (some f) true) vs).destroyed = vs.drop cap ∧
    (putAll (NewPool cap (some f) true) vs).destroyed.length = k ∧
    (vs.Nodup → (putAll (NewPool cap (some f) true) vs).destroyed.Nodup) ∧
    (putAll (NewPool cap (some f) false) vs).destroyed = [] ∧
    (putAll (NewPool cap (some f) false) vs).c.length = cap := by
  obtain ⟨hc, hd, hn⟩ :=
    putAll_spec vs (NewPool cap (some f) true) (by simp) (by simp)
  obtain ⟨hc2, hd2, hn2⟩ :=
    putAll_spec vs (NewPool cap (some f) false) (by simp) (by simp)
  simp only [NewPool_c, NewPool_size, NewPool_close, NewPool_destroyed,
    List.nil_append, Nat.sub_zero, if_true, if_false, List.length_nil] at hc hd hc2 hd2
  refine ⟨?_, ?_, ?_, ?_, ?_⟩
  · simpa using hd
  · simp [hd, hlen]
  · intro hnd
    rw [hd]
    simpa using hnd.sublist (List.drop_sublist cap vs)
  · simpa using hd2
  · rw [hc2]
    simp [hlen]

/-- C5 witness at capacity 2 with 3 = 2 + 1 puts. -/
theorem C5_overflow_witness :
    (0 < 1 ∧ ([4, 5, 6] : List Nat).length = 2 + 1) ∧
    (putAll (NewPool 2 (some (fun n => n)) true) [4, 5, 6]).destroyed =
      [6] := by
  refine ⟨⟨by decide, by decide⟩, ?_⟩
  have h := C5_overflow 2 1 (by decide) (fun n => n) [4, 5, 6] (by decide)
  rw [h.1]
  rfl

/-- A model of a resettable instance in the sense of the `Resetter`
interface, after `bytes.Buffer`: logical content plus a retained
allocation capacity.  `Reset` clears the logical content and keeps the
capacity, as `bytes.Buffer.Reset` does. -/
structure Buf where
  data : List Nat
  cap : Nat

/-- The `Reset()` method required by the `Resetter` interface. -/
def Buf.Reset (b : Buf) : Buf := { b with data := [] }

instance : Inhabited Buf := ⟨⟨[], 0⟩⟩

/-- C6: `resetPool.Put` invokes `Reset` synchronously before delegating to
the wrapped pool's `Put` unchanged, and `Get`/`Close` are the wrapped
pool's operations; consequently, for any mutation `m` applied to a buffer
between `Get` and `Put` on a pool with room, the next `Get` returning that
buffer yields the pristine reset state — empty logical content — while its
retained capacity is whatever the mutation left. -/
theorem C6_reset_pool {T : Type} [Inhabited T] (reset : T → T)
    (p : PoolState T) (v : T) (q : PoolState Buf) (hq : ¬q.closed)
    (hqc : q.c = []) (hqs : 0 < q.size) (m : Buf → Buf) (w : Buf) :
    resetPut reset p v = Put p (reset v) ∧
    resetGet (T := T) = Get ∧
    resetClose (T := T) = Close ∧
    ∃ r, resetPut Buf.Reset q (m w) = some r ∧
      (Get r).1 = Buf.Reset (m w) ∧
      (Get r).1.data = [] ∧ (Get r).1.cap = (m w).cap := by
  refine ⟨rfl, rfl, rfl, { q with c := [Buf.Reset (m w)] }, ?_, ?_, ?_, ?_⟩
  · unfold resetPut
    rw [Put_lt q (Buf.Reset (m w)) hq (by rw [hqc]; simpa using hqs), hqc]
    simp
  · simp [Get]
  · simp [Get, Buf.Reset]
  · simp [Get, Buf.Reset]

/-- C6 witness: a buffer written to between `Get` and `Put` comes back
from the next `Get` with empty content and its capacity retained. -/
theorem C6_reset_pool_witness :
    ∃ r, resetPut Buf.Reset (NewPool 10 none false) ⟨[7, 7, 7], 8⟩ =
        some r ∧
      (Get r).1.data = [] ∧ (Get r).1.cap = 8 := by
  obtain ⟨-, -, -, r, hr1, -, hr3, hr4⟩ :=
    C6_reset_pool (T := Nat) id (NewPool 0 none false) 0
      (NewPool 10 none false) (by simp) (by simp) (by simp)
      (fun b => ⟨7 :: b.data, 8⟩) ⟨[7, 7], 0⟩
  exact ⟨r, hr1, hr3, hr4⟩

/-- C7 counterexample: the claim that every operation succeeds for every
sequence of calls fails — after the call sequence `Close` on a fresh
capacity-0 pool, `Put` is a send on a closed channel and panics (`none`). -/
theorem C7_total_cex :
    Close (NewPool 0 (none : Option (Nat → Nat)) false) =
      some (⟨[], 0, none, 0, false, [], true⟩ : PoolState Nat) ∧
    Put (⟨[], 0, none, 0, false, [], true⟩ : PoolState Nat) 5 = none := by
  constructor <;> rfl

/-- C7 amended: every operation is total and always succeeds on a pool
that has not been closed — `Put` and `Close` succeed on every open pool —
and `Get` never fails on any pool state; in particular, `Get` on a
constructor-less pool holding no instance (as a capacity-0 pool always is)
returns the zero value, without blocking or panicking. -/
theorem C7_total_amended {T : Type} [Inhabited T] (p : PoolState T)
    (hp : ¬p.closed) (v : T) (q : PoolState T) (hqc : q.c = [])
    (hqn : q.new = none) :
    (Put p v).isSome ∧ (Close p).isSome ∧ Get q = (default, q) := by
  refine ⟨?_, ?_, ?_⟩
  · by_cases hlt : p.c.length < p.size
    · simp [Put_lt p v hp hlt]
    · simp [Put_full p v hp hlt]
  · simp [Close_open p hp]
  · by_cases hcl : q.closed <;> simp [Get, hqc, hqn, hcl, maybeNew]

/-- C7 amended witness: concrete open pool and concrete capacity-0
constructor-less pool. -/
theorem C7_total_amended_witness :
    (Put (⟨[], 1, none, 0, false, [], false⟩ : PoolState Nat) 3).isSome ∧
    (Close (⟨[], 1, none, 0, false, [], false⟩ : PoolState Nat)).isSome ∧
    Get (⟨[], 0, none, 0, false, [], false⟩ : PoolState Nat) =
      (0, ⟨[], 0, none, 0, false, [], false⟩) := by
  have h := C7_total_amended (⟨[], 1, none, 0, false, [], false⟩ : PoolState Nat)
    (by simp) 3 (⟨[], 0, none, 0, false, [], false⟩ : PoolState Nat) rfl rfl
  exact ⟨h.1, h.2.1, h.2.2⟩

/-- The concrete C8 pipeline: a capacity-100 pool whose constructor hands
out 0, 1, 2, … and whose destructor is tracked; 200 `Get` calls, then one
`Put` per obtained instance, then 100 more `Get` calls. -/
def c8Pool : PoolState Nat := NewPool 100 (some (fun n => n)) true

/-- Result of the 200 initial `Get` calls of the C8 scenario. -/
def c8Gets : List Nat × PoolState Nat := getN c8Pool 200

/-- State after the 200 `Put` calls of the C8 scenario. -/
def c8Puts : PoolState Nat := putAll c8Gets.2 c8Gets.1

/-- Result of the 100 subsequent `Get` calls of the C8 scenario. -/
def c8Regets : List Nat × PoolState Nat := getN c8Puts 100

/-- C8 counterexample: in the scenario exactly as claimed — 200 gets, 200
puts, 100 gets, then `Close().Wait()` — the 100 final gets empty the
store, so `Close` drains nothing and the total number of destructor
invocations is 100, not the claimed 200. -/
theorem c8Gets_eq :
    c8Gets = (List.range 200,
      (⟨[], 100, some (fun n => n), 200, true, [], false⟩ : PoolState Nat)) := by
  have hg := getN_empty_new 200 c8Pool (fun n => n) rfl (by simp [c8Pool])
    rfl
  simp only [c8Gets]
  rw [hg]
  simp [c8Pool, NewPool]

theorem c8Puts_c : c8Puts.c = List.range 100 := by
  obtain ⟨hpc, -, -⟩ := putAll_spec (List.range 200)
    (⟨[], 100, some (fun n => n), 200, true, [], false⟩ : PoolState Nat)
    (by simp) (by simp)
  have hmin : (100 : Nat) ⊓ 200 = 100 := inf_eq_left.mpr (by norm_num)
  simp only [c8Puts, c8Gets_eq]
  rw [hpc]
  simp [List.take_range, hmin]

theorem c8Puts_destroyed : c8Puts.destroyed = (List.range 200).drop 100 := by
  obtain ⟨-, hpd, -⟩ := putAll_spec (List.range 200)
    (⟨[], 100, some (fun n => n), 200, true, [], false⟩ : PoolState Nat)
    (by simp) (by simp)
  simp only [c8Puts, c8Gets_eq]
  rw [hpd]
  simp

theorem c8Puts_fields :
    c8Puts.closed = false ∧ c8Puts.size = 100 ∧ c8Puts.close = true ∧
    c8Puts.newCalls = 200 := by
  obtain ⟨-, -, hpn⟩ := putAll_spec (List.range 200)
    (⟨[], 100, some (fun n => n), 200, true, [], false⟩ : PoolState Nat)
    (by simp) (by simp)
  obtain ⟨h1, h2, -, h4⟩ := run_fields
    (⟨[], 100, some (fun n => n), 200, true, [], false⟩ : PoolState Nat)
    ((List.range 200).map Op.put)
  simp only [c8Puts, c8Gets_eq]
  exact ⟨h1, h2, h4, hpn⟩

/-- The pool state after the 100 re-gets of the C8 scenario: the store is
empty, everything else is as after the 200 puts. -/
def c8Drained : PoolState Nat :=
  ⟨[], c8Puts.size, c8Puts.new, c8Puts.newCalls, c8Puts.close,
    c8Puts.destroyed, c8Puts.closed⟩

theorem c8Regets_fst : c8Regets.1 = List.range 100 := by
  obtain ⟨hr1, -⟩ := getN_spec 100 c8Puts (by rw [c8Puts_c]; simp)
  simp only [c8Regets]
  rw [hr1, c8Puts_c, List.take_range]
  simp

theorem c8Regets_snd : c8Regets.2 = c8Drained := by
  obtain ⟨-, hr2⟩ := getN_spec 100 c8Puts (by rw [c8Puts_c]; simp)
  simp only [c8Regets]
  rw [hr2, c8Puts_c]
  simp [c8Drained,
    List.drop_eq_nil_of_le (show (List.range 100).length ≤ 100 by simp)]

/-- C8 counterexample: in the scenario exactly as claimed — 200 gets, 200
puts, 100 gets, then `Close().Wait()` — the 100 final gets empty the
store, so `Close` drains nothing and the total number of destructor
invocations is 100, not the claimed 200. -/
theorem C8_scenario_cex :
    (Close c8Regets.2).map (fun q => q.destroyed.length) = some 100 ∧
    (100 : Nat) ≠ 200 := by
  obtain ⟨hcl, -, hcff, -⟩ := c8Puts_fields
  have hopen : ¬c8Drained.closed = true := by simp [c8Drained, hcl]
  have hsome := Close_open c8Drained hopen
  obtain ⟨-, -, hdes, -⟩ := Close_spec _ hopen _ hsome
  rw [c8Regets_snd, hsome]
  simp only [Option.map_some', Option.some.injEq]
  refine ⟨?_, by omega⟩
  rw [hdes]
  simp [c8Drained, c8Puts_destroyed, hcff]

/-- C8 amended: as the repository's test does, the 100 instances obtained
by the final gets are `Put` back before `Close`.  Then: the 200 gets each
invoke the constructor; the 200 puts store the first 100 instances and
schedule destruction of the last 100; the 100 subsequent gets return
stored instances, none of which has a destruction task; and after the
put-backs, `Close().Wait()` adds exactly 100 destructions for a total of
exactly 200. -/
theorem C8_scenario_amended :
    c8Gets.2.newCalls = 200 ∧
    c8Puts.c.length = 100 ∧
    c8Puts.destroyed.length = 100 ∧
    c8Regets.1.length = 100 ∧
    (∀ x ∈ c8Regets.1, x ∉ c8Regets.2.destroyed) ∧
    (Close (putAll c8Regets.2 c8Regets.1)).map
      (fun q => q.destroyed.length) = some 200 := by
  obtain ⟨hclf, hszf, hcff, -⟩ := c8Puts_fields
  have hmin : (100 : Nat) ⊓ 200 = 100 := inf_eq_left.mpr (by norm_num)
  refine ⟨?_, ?_, ?_, ?_, ?_, ?_⟩
  · rw [c8Gets_eq]
  · rw [c8Puts_c]; simp
  · rw [c8Puts_destroyed]; simp
  · rw [c8Regets_fst]; simp
  · have hd := List.disjoint_take_drop (l := List.range 200)
      (List.nodup_range 200) (le_refl 100)
    rw [List.take_range, hmin] at hd
    rw [c8Regets_fst, c8Regets_snd]
    intro x hx
    have hdd : c8Drained.destroyed = (List.range 200).drop 100 := by
      simp [c8Drained, c8Puts_destroyed]
    rw [hdd]
    exact fun hmem => hd hx hmem
  · rw [c8Regets_fst, c8Regets_snd]
    have hrf := run_fields c8Drained ((List.range 100).map Op.put)
    obtain ⟨hsc, hsd, -⟩ := putAll_spec (List.range 100) c8Drained
      (by simp [c8Drained, hclf]) (by simp [c8Drained])
    have hopen2 : ¬(putAll c8Drained (List.range 100)).closed = true := by
      show ¬(run _ _).closed = true
      rw [hrf.1]
      simp [c8Drained, hclf]
    have hsome2 := Close_open _ hopen2
    obtain ⟨-, -, hdes2, -⟩ := Close_spec _ hopen2 _ hsome2
    have hclose2 : (putAll c8Drained (List.range 100)).close = true := by
      show (run _ _).close = true
      rw [hrf.2.2.2]
      simp [c8Drained, hcff]
    have hfin : (putAll c8Drained (List.range 100)).destroyed =
        (List.range 200).drop 100 := by
      rw [hsd]
      simp [c8Drained, hcff, hszf, c8Puts_destroyed,
        List.drop_eq_nil_of_le (by simp : (List.range 100).length ≤ 100)]
    have hfin2 : (putAll c8Drained (List.range 100)).c = List.range 100 := by
      rw [hsc]
      simp [c8Drained, hszf, List.take_range]
    rw [hsome2]
    simp only [Option.map_some', Option.some.injEq]
    rw [hdes2]
    simp [hclose2, hfin, hfin2]

/-- C9: after `Close`, every subsequent `Get` receives from the closed,
drained channel and so returns the zero value with the state unchanged —
the constructor is never invoked even when one was supplied; iterating
`Get` any number of times only produces zero values. -/
theorem C9_get_after_close {T : Type} [Inhabited T] (p : PoolState T)
    (h : ¬p.closed) (q : PoolState T) (hq : Close p = some q) :
    Get q = (default, q) ∧
    ∀ n, (getN q n).1 = List.replicate n default ∧ (getN q n).2 = q := by
  obtain ⟨h1, h2, -⟩ := Close_spec p h q hq
  have hget : Get q = (default, q) := by simp [Get, h1, h2]
  refine ⟨hget, ?_⟩
  intro n
  induction n with
  | zero => simp [getN]
  | succ n ih => simp [getN, hget, ih, List.replicate_succ]

/-- C9 witness: a closed pool that was created with a constructor still
yields the zero value from `Get`. -/
theorem C9_get_after_close_witness :
    Get (⟨[], 1, some (fun n => n + 7), 0, false, [], true⟩ : PoolState Nat) =
      (0, ⟨[], 1, some (fun n => n + 7), 0, false, [], true⟩) :=
  (C9_get_after_close
    (⟨[], 1, some (fun n => n + 7), 0, false, [], false⟩ : PoolState Nat)
    (by simp) _ rfl).1

/-- C10: once `Close` has returned, a subsequent `Put` is a send on a
closed channel and panics, and a second `Close` closes a closed channel
and panics — neither is a silent no-op or a silent discard. -/
theorem C10_post_close_panics {T : Type} (p : PoolState T) (h : ¬p.closed)
    (v : T) (q : PoolState T) (hq : Close p = some q) :
    Put q v = none ∧ Close q = none := by
  obtain ⟨-, h2, -⟩ := Close_spec p h q hq
  constructor <;> simp [Put, Close, h2]

/-- C10 witness: `Put` and a second `Close` both panic on a concrete
closed pool. -/
theorem C10_post_close_panics_witness :
    Put (⟨[], 1, none, 0, false, [], true⟩ : PoolState Nat) 3 = none ∧
    Close (⟨[], 1, none, 0, false, [], true⟩ : PoolState Nat) = none :=
  C10_post_close_panics
    (⟨[], 1, none, 0, false, [], false⟩ : PoolState Nat) (by simp) 3 _ rfl

end GPool
